import Mathlib

/-!
The `cli.c` event loops of quicly.

A shallow embedding of `src/cli.c`: the deadline computation handed to `select`, the
server's connection table (`conns[0..num_conns)`) with its lookup, append and removal
loops, `send_pending`, the stream callback `on_req_receive`, and one cycle of the
client and server loops.

The QUIC engine (`quicly_*`) is not part of `cli.c`.  What the engine answers is a
parameter of the model: `quicly_get_connection_id` and `quicly_get_first_timeout` are
functions of the handle, and the results of `quicly_send`, `sendmsg`, `select`,
`quicly_decode_packet`, `quicly_accept` are inputs of the function that makes the call.
-/

namespace Quicly

/-! ## Machine integers -/

/-- The constant `INT64_MAX`. -/
def INT64_MAX : Int := 9223372036854775807

/-- The constant `INT64_MIN`. -/
def INT64_MIN : Int := -9223372036854775808

/-- Membership in the range of `int64_t`. -/
def is_int64 (x : Int) : Prop := INT64_MIN ≤ x ∧ x ≤ INT64_MAX

instance (x : Int) : Decidable (is_int64 x) := by
  unfold is_int64; infer_instance

/-- Reduction of an integer to `int64_t`, two's complement (modulo `2^64`). -/
def int64_wrap (x : Int) : Int :=
  (x + 9223372036854775808) % 18446744073709551616 - 9223372036854775808

/-- The subtraction `a - b` on `int64_t`, taken modulo `2^64`. -/
def int64_sub (a b : Int) : Int := int64_wrap (a - b)

/-! ## The wait duration handed to `select` (run_client l.172-185, run_server l.256-268) -/

/-- The fields of `struct timeval`. -/
structure timeval where
  tv_sec : Int
  tv_usec : Int
  deriving DecidableEq, Repr

/-- The block `if (timeout_at != INT64_MAX) { ... tv = &tvbuf; } else { tv = NULL; }`
shared by both loops: `none` is `tv = NULL`.  The C operators `/` and `%` truncate
toward zero (`Int.tdiv`, `Int.tmod`). -/
def select_timeout (timeout_at now : Int) : Option timeval :=
  if timeout_at ≠ INT64_MAX then
    let delta := int64_sub timeout_at now
    if delta > 0 then
      some { tv_sec := Int.tdiv delta 1000, tv_usec := Int.tmod delta 1000 * 1000 }
    else
      some { tv_sec := 0, tv_usec := 0 }
  else
    none

/-! ## Connection handles and the server's table -/

/-- A connection handle `quicly_conn_t *` that is not NULL, identified by its address.
A pointer that may be NULL is an `Option quicly_conn_t`. -/
abbrev quicly_conn_t := Nat

/-- The server's table: the allocated array `conns` and the counter `num_conns`.
The table proper is `conns[0..num_conns)`; what lies behind it is stale storage. -/
structure ServerTable where
  conns : List quicly_conn_t
  num_conns : Nat
  deriving DecidableEq, Repr

/-- The table at the start of `run_server`: `conns` is a zero-initialised static
(no storage), `num_conns = 0`. -/
def ServerTable.init : ServerTable := { conns := [], num_conns := 0 }

/-- The sequence `conns[0..num_conns)`. -/
def ServerTable.view (t : ServerTable) : List quicly_conn_t := t.conns.take t.num_conns

/-- The counter does not run past the allocated array. -/
def ServerTable.wf (t : ServerTable) : Prop := t.num_conns ≤ t.conns.length

instance (t : ServerTable) : Decidable t.wf := by
  unfold ServerTable.wf; infer_instance

/-- The deadline scan of run_server (l.249-255), from index `i` with `k` iterations
left (`k = num_conns - i`):
`for (i = 0; i != num_conns; ++i) { conn_to = quicly_get_first_timeout(conns[i]);
if (conn_to < timeout_at) timeout_at = conn_to; }`.
A read outside the allocated array leaves `timeout_at` as it is. -/
def first_timeout_loop (quicly_get_first_timeout : quicly_conn_t → Int)
    (conns : List quicly_conn_t) : Nat → Nat → Int → Int
  | 0, _, timeout_at => timeout_at
  | k + 1, i, timeout_at =>
    match conns[i]? with
    | some c =>
      let conn_to := quicly_get_first_timeout c
      first_timeout_loop quicly_get_first_timeout conns k (i + 1)
        (if conn_to < timeout_at then conn_to else timeout_at)
    | none => timeout_at

/-- The value of `timeout_at` after the scan: it starts at `INT64_MAX`. -/
def server_timeout_at (quicly_get_first_timeout : quicly_conn_t → Int)
    (t : ServerTable) : Int :=
  first_timeout_loop quicly_get_first_timeout t.conns t.num_conns 0 INT64_MAX

/-- The timeout the server loop passes to `select`; `now` is `ctx.now(&ctx)`. -/
def run_server_timeout (quicly_get_first_timeout : quicly_conn_t → Int)
    (t : ServerTable) (now : Int) : Option timeval :=
  select_timeout (server_timeout_at quicly_get_first_timeout t) now

/-- The value of `timeout_at` in the client loop (l.172):
`conn != NULL ? quicly_get_first_timeout(conn) : INT64_MAX`. -/
def client_timeout_at (quicly_get_first_timeout : quicly_conn_t → Int)
    (conn : Option quicly_conn_t) : Int :=
  match conn with
  | some c => quicly_get_first_timeout c
  | none => INT64_MAX

/-- The timeout the client loop passes to `select`; `now` is the context's clock. -/
def run_client_timeout (quicly_get_first_timeout : quicly_conn_t → Int)
    (conn : Option quicly_conn_t) (now : Int) : Option timeval :=
  select_timeout (client_timeout_at quicly_get_first_timeout conn) now

/-- The lookup scan of run_server (l.292-299), from index `i` with `k` iterations left:
`for (i = 0; i != num_conns; ++i) if (quicly_get_connection_id(conns[i]) ==
packet.connection_id) { conn = conns[i]; break; }`.  `none` is `conn == NULL`. -/
def find_conn_loop (quicly_get_connection_id : quicly_conn_t → Nat)
    (conns : List quicly_conn_t) (connection_id : Nat) : Nat → Nat → Option quicly_conn_t
  | 0, _ => none
  | k + 1, i =>
    match conns[i]? with
    | some c =>
      if quicly_get_connection_id c = connection_id then some c
      else find_conn_loop quicly_get_connection_id conns connection_id k (i + 1)
    | none => none

/-- The lookup scan over the whole table. -/
def find_conn (quicly_get_connection_id : quicly_conn_t → Nat) (t : ServerTable)
    (connection_id : Nat) : Option quicly_conn_t :=
  find_conn_loop quicly_get_connection_id t.conns connection_id t.num_conns 0

/-- The call `realloc(conns, sizeof(*conns) * n)`: the first `n` entries are kept, and
entries beyond the old size hold indeterminate values (written `0` here; the accept
path overwrites the only such entry at once). -/
def realloc_conns (conns : List quicly_conn_t) (n : Nat) : List quicly_conn_t :=
  conns.take n ++ List.replicate (n - conns.length) 0

/-- The accept path (l.314-316): `conns = realloc(conns, sizeof(*conns) * (num_conns + 1));
conns[num_conns++] = conn;`. -/
def append_conn (t : ServerTable) (conn : quicly_conn_t) : ServerTable :=
  { conns := (realloc_conns t.conns (t.num_conns + 1)).set t.num_conns conn
    num_conns := t.num_conns + 1 }

/-- The call `memcpy(conns + dst, conns + src, n * sizeof(*conns))`: entry `dst + j`
receives the value entry `src + j` held before the call, for `j < n`.  The removal loop
calls it on regions that overlap as soon as more than one entry moves down; the copy is
taken to be the one `memmove` makes. -/
def memcpy_conns (conns : List quicly_conn_t) (dst src n : Nat) : List quicly_conn_t :=
  conns.take dst ++ (conns.drop src).take n ++ conns.drop (dst + n)

/-- The removal loop of the flush step (l.322-328), from index `i` with `k` iterations
left: `for (i = 0; i != num_conns; ++i) if (conns[i] == conn) { memcpy(conns + i,
conns + i + 1, (num_conns - i - 1) * sizeof(*conns)); --num_conns; break; }`. -/
def remove_conn_loop (t : ServerTable) (conn : quicly_conn_t) : Nat → Nat → ServerTable
  | 0, _ => t
  | k + 1, i =>
    if t.conns[i]? = some conn then
      { conns := memcpy_conns t.conns i (i + 1) (t.num_conns - i - 1)
        num_conns := t.num_conns - 1 }
    else remove_conn_loop t conn k (i + 1)

/-- The removal of a handle from the table. -/
def remove_conn (t : ServerTable) (conn : quicly_conn_t) : ServerTable :=
  remove_conn_loop t conn t.num_conns 0

/-- No two entries of `conns[0..num_conns)` carry the same connection identifier. -/
def ids_unique (quicly_get_connection_id : quicly_conn_t → Nat) (t : ServerTable) : Prop :=
  (t.view.map quicly_get_connection_id).Nodup

instance (cid : quicly_conn_t → Nat) (t : ServerTable) : Decidable (ids_unique cid t) := by
  unfold ids_unique; infer_instance

/-- Tables built from the empty table by appends (accept path) and removals by handle
(flush-failure path), no append ever putting two equal identifiers side by side in the
table.  Removals cannot create a duplicate, so the condition sits on appends only. -/
inductive Reachable (quicly_get_connection_id : quicly_conn_t → Nat) : ServerTable → Prop
  | init : Reachable quicly_get_connection_id ServerTable.init
  | append (t : ServerTable) (conn : quicly_conn_t) :
      Reachable quicly_get_connection_id t →
      ids_unique quicly_get_connection_id (append_conn t conn) →
      Reachable quicly_get_connection_id (append_conn t conn)
  | remove (t : ServerTable) (conn : quicly_conn_t) :
      Reachable quicly_get_connection_id t →
      Reachable quicly_get_connection_id (remove_conn t conn)

/-! ## send_pending (l.114-146) -/

/-- A packet `quicly_raw_packet_t *` handed out by the engine, identified by its address. -/
abbrev quicly_raw_packet_t := Nat

/-- What one call `ret = quicly_send(conn, packets, &num_packets)` hands back: the
status `ret` and the packets `packets[0..num_packets)`. -/
structure quicly_send_result where
  ret : Int
  packets : List quicly_raw_packet_t
  deriving DecidableEq, Repr

/-- The fate of one packet in `sendmsg`: the call fails with `errno == EINTR` `eintr`
times, then returns `ret` (`-1` with another `errno`, or the number of bytes sent). -/
structure sendmsg_outcome where
  eintr : Nat
  ret : Int
  deriving DecidableEq, Repr

/-- What `send_pending` does, in program order. -/
inductive Event
  | quicly_send
  | sendmsg (packet : quicly_raw_packet_t) (ret : Int)
  | perror
  | free_packet (packet : quicly_raw_packet_t)
  deriving DecidableEq, Repr

/-- The retry loop `while ((ret = (int)sendmsg(fd, &mess, 0)) == -1 && errno == EINTR);`
on one packet: `eintr` interrupted calls, then the call that returns `ret`. -/
def sendmsg_loop (packet : quicly_raw_packet_t) : Nat → Int → List Event
  | 0, ret => [Event.sendmsg packet ret]
  | eintr + 1, ret => Event.sendmsg packet (-1) :: sendmsg_loop packet eintr ret

/-- The loop `for (i = 0; i != num_packets; ++i) { ... }` over the packets still to be
sent.  `n` counts the packets sent before in this call of `send_pending` and indexes the
outcomes of `sendmsg`; the third argument is `ret` on entry.  The result is the events
and `ret` on exit: each pass ends with `ret = 0; quicly_default_free_packet(...)`. -/
def send_packets (outcome : Nat → sendmsg_outcome) :
    List quicly_raw_packet_t → Nat → Int → List Event × Int
  | [], _, ret => ([], ret)
  | packet :: rest, n, _ =>
    let ret := (outcome n).ret
    let sent := sendmsg_loop packet (outcome n).eintr ret
    let logged := if ret = -1 then [Event.perror] else []
    let ret := 0
    let next := send_packets outcome rest (n + 1) ret
    (sent ++ logged ++ [Event.free_packet packet] ++ next.1, next.2)

/-- The loop `do { ... } while (ret == 0 && num_packets != 0); return ret;` against the
successive answers of `quicly_send`.  The second component is the value returned, `none`
when the list of answers ends before the loop does. -/
def send_pending (outcome : Nat → sendmsg_outcome) :
    List quicly_send_result → Nat → List Event × Option Int
  | [], _ => ([], none)
  | r :: answers, n =>
    let num_packets := r.packets.length
    let body := send_packets outcome r.packets n r.ret
    if body.2 = 0 ∧ num_packets ≠ 0 then
      let next := send_pending outcome answers (n + num_packets)
      (Event.quicly_send :: body.1 ++ next.1, next.2)
    else
      (Event.quicly_send :: body.1, some body.2)

/-- The packets passed to `quicly_default_free_packet`, in order. -/
def freed : List Event → List quicly_raw_packet_t
  | [] => []
  | Event.free_packet p :: es => p :: freed es
  | _ :: es => freed es

/-- The number of calls of `quicly_send`. -/
def drain_calls : List Event → Nat
  | [] => 0
  | Event.quicly_send :: es => drain_calls es + 1
  | _ :: es => drain_calls es

/-- The packets handed out by the first `m` answers of `quicly_send`, in order. -/
def handed_out (answers : List quicly_send_result) (m : Nat) : List quicly_raw_packet_t :=
  ((answers.take m).map (fun r => r.packets)).flatten

/-! ## The stream callback on_req_receive (l.75-91) -/

/-- Modelled from the spec: the receive buffer `stream->recvbuf` (`quicly_recvbuf_t` and
its operations belong to the engine, not to `cli.c`).  `data` is the inbound bytes not
yet consumed, as the chunks `quicly_recvbuf_get` returns one at a time; `data_off` counts
the inbound bytes consumed so far (`quicly_recvbuf_shift` adds to it); `is_shutdown` is
what `quicly_recvbuf_is_shutdown` reports. -/
structure quicly_recvbuf_t where
  data : List (List Char)
  data_off : Nat
  is_shutdown : Bool
  deriving DecidableEq, Repr

/-- Modelled from the spec: a stream as `on_req_receive` sees it, the receive buffer and
the outbound channel `stream->sendbuf` (the bytes written so far by
`quicly_sendbuf_write`, and whether `quicly_sendbuf_shutdown` was called). -/
structure quicly_stream_t where
  recvbuf : quicly_recvbuf_t
  sendbuf : List Char
  sendbuf_shutdown : Bool
  deriving DecidableEq, Repr

/-- The greeting of `on_req_receive`. -/
def greeting : List Char := "Hello world!\nThe request was: ".toList

/-- The loop `while ((input = quicly_recvbuf_get(&stream->recvbuf)).len != 0) {
quicly_sendbuf_write(..., input.base, input.len, NULL);
quicly_recvbuf_shift(&stream->recvbuf, input.len); }` over the chunks of the receive
buffer: `quicly_recvbuf_get` returns the first chunk (length 0 when there is none) and
the shift by `input.len` removes it and advances `data_off`. -/
def echo_loop (sendbuf : List Char) (data_off : Nat) :
    List (List Char) → List Char × Nat × List (List Char)
  | [] => (sendbuf, data_off, [])
  | input :: rest =>
    if input.length ≠ 0 then echo_loop (sendbuf ++ input) (data_off + input.length) rest
    else (sendbuf, data_off, input :: rest)

/-- The callback `on_req_receive`. -/
def on_req_receive (stream : quicly_stream_t) : quicly_stream_t :=
  let sendbuf :=
    if stream.recvbuf.data_off = 0 then stream.sendbuf ++ greeting else stream.sendbuf
  let r := echo_loop sendbuf stream.recvbuf.data_off stream.recvbuf.data
  { recvbuf := { data := r.2.2, data_off := r.2.1, is_shutdown := stream.recvbuf.is_shutdown }
    sendbuf := r.1
    sendbuf_shutdown :=
      if stream.recvbuf.is_shutdown then true else stream.sendbuf_shutdown }

/-- A stream at creation: nothing received, nothing consumed, nothing written. -/
def quicly_stream_t.init : quicly_stream_t :=
  { recvbuf := { data := [], data_off := 0, is_shutdown := false }
    sendbuf := []
    sendbuf_shutdown := false }

/-- Modelled from the spec: the engine's side of one invocation of the callback, the
inbound bytes that became available since the last one are added to the receive buffer
(nothing is added when there are none). -/
def deliver (stream : quicly_stream_t) (bytes : List Char) : quicly_stream_t :=
  if bytes.length = 0 then stream
  else { stream with recvbuf := { stream.recvbuf with data := stream.recvbuf.data ++ [bytes] } }

/-- A sequence of invocations of `on_req_receive` on one stream, each preceded by the
arrival of the given inbound bytes. -/
def invoke_on_req_receive (stream : quicly_stream_t) : List (List Char) → quicly_stream_t
  | [] => stream
  | bytes :: later => invoke_on_req_receive (on_req_receive (deliver stream bytes)) later

/-! ## One cycle of the loops -/

/-- Operations on a connection issued by a cycle, in program order. -/
inductive Call
  | quicly_receive (conn : quicly_conn_t)
  | quicly_open_stream (conn : quicly_conn_t)
  | send_data (conn : quicly_conn_t) (s : String)
  | quicly_accept
  | send_pending (conn : quicly_conn_t)
  | quicly_free (conn : quicly_conn_t)
  | ignoring_packet_without_connection_id
  deriving DecidableEq, Repr

/-- What the outside answers during one cycle of `run_server`: whether `select` left the
socket readable, the result of `quicly_decode_packet` and the decoded packet's
`has_connection_id` and `connection_id`, whether the connection is in
`QUICLY_STATE_1RTT_ENCRYPTED` after `quicly_receive` and its next stream id, the handle
`quicly_accept` yields (`none` when it does not return 0), and the value `send_pending`
returns. -/
structure server_wake where
  readable : Bool
  decode_ret : Int
  has_connection_id : Bool
  connection_id : Nat
  state_1rtt : Bool
  next_stream_id : Nat
  accept : Option quicly_conn_t
  send_pending_ret : Int
  deriving DecidableEq, Repr

/-- The flush step of run_server (l.321-330): `if (conn != NULL && send_pending(fd, conn)
!= 0) { <removal loop> quicly_free(conn); }` for a `conn` that is not NULL. -/
def server_flush (t : ServerTable) (conn : quicly_conn_t) (send_pending_ret : Int) :
    ServerTable × List Call :=
  if send_pending_ret ≠ 0 then
    (remove_conn t conn, [Call.send_pending conn, Call.quicly_free conn])
  else
    (t, [Call.send_pending conn])

/-- One pass through the body of `while (1)` in run_server, after `select` (l.272-335). -/
def run_server_cycle (quicly_get_connection_id : quicly_conn_t → Nat) (t : ServerTable)
    (w : server_wake) : ServerTable × List Call :=
  if w.readable then
    if w.decode_ret = 0 then
      if w.has_connection_id then
        match find_conn quicly_get_connection_id t w.connection_id with
        | some conn =>
          let opened :=
            if w.state_1rtt ∧ w.next_stream_id = 1 then
              [Call.quicly_open_stream conn, Call.send_data conn "GET / HTTP/1.0\r\n\r\n"]
            else []
          let flushed := server_flush t conn w.send_pending_ret
          (flushed.1, Call.quicly_receive conn :: opened ++ flushed.2)
        | none =>
          match w.accept with
          | some conn =>
            let flushed := server_flush (append_conn t conn) conn w.send_pending_ret
            (flushed.1, Call.quicly_accept :: flushed.2)
          | none => (t, [Call.quicly_accept])
      else (t, [Call.ignoring_packet_without_connection_id])
    else (t, [])
  else (t, [])

/-- The server loop over a sequence of wake-ups: the table at the end and all calls. -/
def run_server (quicly_get_connection_id : quicly_conn_t → Nat) :
    ServerTable → List server_wake → ServerTable × List Call
  | t, [] => (t, [])
  | t, w :: ws =>
    let now := run_server_cycle quicly_get_connection_id t w
    let later := run_server quicly_get_connection_id now.1 ws
    (later.1, now.2 ++ later.2)

/-- What the outside answers during one cycle of `run_client`. -/
structure client_wake where
  readable : Bool
  decode_ret : Int
  state_1rtt : Bool
  next_stream_id : Nat
  send_pending_ret : Int
  deriving DecidableEq, Repr

/-- A failure of the C program outside its defined behaviour. -/
inductive Fault
  | null_conn_in_quicly_receive
  deriving DecidableEq, Repr

/-- The dispatch step of run_client (l.189-217); `conn` is the local variable, `none`
when it is NULL.  `quicly_receive(conn, &packet)` is called without a test of `conn`. -/
def run_client_dispatch (conn : Option quicly_conn_t) (w : client_wake) :
    Except Fault (List Call) :=
  if w.readable then
    if w.decode_ret = 0 then
      match conn with
      | none => Except.error Fault.null_conn_in_quicly_receive
      | some c =>
        if w.state_1rtt ∧ w.next_stream_id = 1 then
          Except.ok [Call.quicly_receive c, Call.quicly_open_stream c,
            Call.send_data c "GET /\r\n"]
        else Except.ok [Call.quicly_receive c]
    else Except.ok []
  else Except.ok []

/-- The flush step of run_client (l.218-221): `if (conn != NULL && send_pending(fd, conn)
!= 0) { quicly_free(conn); conn = NULL; }`. -/
def run_client_flush (conn : Option quicly_conn_t) (send_pending_ret : Int) :
    Option quicly_conn_t × List Call :=
  match conn with
  | none => (none, [])
  | some c =>
    if send_pending_ret ≠ 0 then (none, [Call.send_pending c, Call.quicly_free c])
    else (some c, [Call.send_pending c])

/-- One pass through the body of `while (1)` in run_client, after `select`. -/
def run_client_cycle (conn : Option quicly_conn_t) (w : client_wake) :
    Except Fault (Option quicly_conn_t × List Call) :=
  match run_client_dispatch conn w with
  | Except.error e => Except.error e
  | Except.ok calls =>
    let flushed := run_client_flush conn w.send_pending_ret
    Except.ok (flushed.1, calls ++ flushed.2)

/-- The client loop over a sequence of wake-ups. -/
def run_client : Option quicly_conn_t → List client_wake →
    Except Fault (Option quicly_conn_t × List Call)
  | conn, [] => Except.ok (conn, [])
  | conn, w :: ws =>
    match run_client_cycle conn w with
    | Except.error e => Except.error e
    | Except.ok now =>
      match run_client now.1 ws with
      | Except.error e => Except.error e
      | Except.ok later => Except.ok (later.1, now.2 ++ later.2)

/-! # Properties -/

/-! ## The table operations as list operations -/

theorem find_conn_loop_eq (cid : quicly_conn_t → Nat) (conns : List quicly_conn_t)
    (id : Nat) (k i : Nat) :
    find_conn_loop cid conns id k i
      = ((conns.drop i).take k).find? (fun c => decide (cid c = id)) := by
  induction k generalizing i with
  | zero => simp [find_conn_loop]
  | succ k ih =>
    unfold find_conn_loop
    by_cases hi : i < conns.length
    · rw [List.getElem?_eq_getElem hi, List.drop_eq_getElem_cons hi]
      simp only [List.take_succ_cons, List.find?_cons]
      by_cases hc : cid conns[i] = id
      · simp [hc]
      · simp [hc, ih]
    · have hi2 : conns.length ≤ i := Nat.le_of_not_lt hi
      rw [List.getElem?_eq_none hi2, List.drop_eq_nil_of_le hi2]
      simp

theorem find_conn_eq (cid : quicly_conn_t → Nat) (t : ServerTable) (id : Nat) :
    find_conn cid t id = t.view.find? (fun c => decide (cid c = id)) := by
  simp [find_conn, ServerTable.view, find_conn_loop_eq]

theorem first_timeout_loop_eq (ft : quicly_conn_t → Int) (conns : List quicly_conn_t)
    (k i : Nat) (acc : Int) :
    first_timeout_loop ft conns k i acc
      = ((conns.drop i).take k).foldl
          (fun a c => if ft c < a then ft c else a) acc := by
  induction k generalizing i acc with
  | zero => simp [first_timeout_loop]
  | succ k ih =>
    unfold first_timeout_loop
    by_cases hi : i < conns.length
    · rw [List.getElem?_eq_getElem hi, List.drop_eq_getElem_cons hi]
      simp only [List.take_succ_cons, List.foldl_cons]
      exact ih (i + 1) _
    · have hi2 : conns.length ≤ i := Nat.le_of_not_lt hi
      rw [List.getElem?_eq_none hi2, List.drop_eq_nil_of_le hi2]
      simp

theorem server_timeout_at_eq (ft : quicly_conn_t → Int) (t : ServerTable) :
    server_timeout_at ft t
      = t.view.foldl (fun a c => if ft c < a then ft c else a) INT64_MAX := by
  simp [server_timeout_at, ServerTable.view, first_timeout_loop_eq]

theorem view_length (t : ServerTable) (h : t.wf) : t.view.length = t.num_conns := by
  unfold ServerTable.wf at h
  simp [ServerTable.view, h]

theorem append_conn_view (t : ServerTable) (c : quicly_conn_t) (h : t.wf) :
    (append_conn t c).view = t.view ++ [c] := by
  unfold ServerTable.wf at h
  simp only [append_conn, ServerTable.view, realloc_conns]
  apply List.ext_getElem?
  intro j
  simp only [List.getElem?_take, List.getElem?_set, List.getElem?_append,
    List.length_take, List.length_append, List.length_replicate, List.getElem?_replicate]
  by_cases h1 : j < t.num_conns
  · have h2 : j < t.num_conns + 1 := by omega
    have h3 : t.num_conns ≠ j := by omega
    have h4 : j < min (t.num_conns + 1) t.conns.length := by omega
    have h5 : j < min t.num_conns t.conns.length := by omega
    simp [h1, h2, h3, h4, h5]
  · by_cases h2 : j = t.num_conns
    · subst h2
      have h5 : min t.num_conns t.conns.length = t.num_conns := by omega
      simp [h5]
      omega
    · have h3 : ¬ j < t.num_conns + 1 := by omega
      have h5 : min t.num_conns t.conns.length = t.num_conns := by omega
      have h6 : ¬ j - t.num_conns < 1 := by omega
      simp [h1, h3, h5]
      omega

theorem append_conn_wf (t : ServerTable) (c : quicly_conn_t) (h : t.wf) :
    (append_conn t c).wf := by
  unfold ServerTable.wf at *
  simp only [append_conn, realloc_conns, List.length_set, List.length_append,
    List.length_take, List.length_replicate]
  omega

theorem remove_conn_loop_spec (t : ServerTable) (conn : quicly_conn_t) (h : t.wf)
    (k i : Nat) (hk : i + k = t.num_conns) :
    (remove_conn_loop t conn k i).view = t.view.take i ++ (t.view.drop i).erase conn
    ∧ (remove_conn_loop t conn k i).wf
    ∧ (remove_conn_loop t conn k i).num_conns
        = if conn ∈ t.view.drop i then t.num_conns - 1 else t.num_conns := by
  have hlen := view_length t h
  induction k generalizing i with
  | zero =>
    have hi : t.view.length ≤ i := by omega
    simp [remove_conn_loop, List.drop_eq_nil_of_le hi, List.take_of_length_le hi, h]
  | succ k ih =>
    have hiv : i < t.view.length := by omega
    have hic : i < t.conns.length := by unfold ServerTable.wf at h; omega
    have hget : t.view[i] = t.conns[i] := by
      simp [ServerTable.view]
    unfold remove_conn_loop
    rw [List.drop_eq_getElem_cons hiv, hget, List.getElem?_eq_getElem hic]
    by_cases hc : t.conns[i] = conn
    · subst hc
      simp only [if_true, List.erase_cons_head, List.mem_cons, true_or]
      unfold ServerTable.wf at h
      refine ⟨?_, ?_, trivial⟩
      · simp only [ServerTable.view, memcpy_conns, List.drop_take, List.take_take]
        rw [List.take_append_eq_append_take, List.take_append_eq_append_take]
        simp only [List.length_take, List.length_append, List.length_drop]
        have e1 : min i t.conns.length = i := by omega
        have e2 : min (t.num_conns - i - 1) (t.conns.length - (i + 1))
            = t.num_conns - i - 1 := by omega
        have e3 : t.num_conns - 1 - (i + (t.num_conns - i - 1)) = 0 := by omega
        have e4 : min (t.num_conns - 1) i = i := by omega
        have e5 : min (t.num_conns - 1 - i) (t.num_conns - i - 1)
            = t.num_conns - (i + 1) := by omega
        have e6 : min i t.num_conns = i := by omega
        simp [e1, e2, e3, e4, e5, e6, List.take_take]
      · simp only [ServerTable.wf, memcpy_conns, List.length_append, List.length_take,
          List.length_drop]
        omega
    · have hne : some t.conns[i] ≠ some conn := by
        intro hh; exact hc (Option.some.inj hh)
      have hbeq : (t.conns[i] == conn) = false := by simpa using hc
      obtain ⟨ih1, ih2, ih3⟩ := ih (i + 1) (by omega)
      simp only [if_neg hne, List.erase_cons, hbeq]
      refine ⟨?_, ih2, ?_⟩
      · rw [ih1, List.take_succ, List.getElem?_eq_getElem hiv, hget]
        simp
      · rw [ih3]
        have : (conn ∈ t.conns[i] :: List.drop (i + 1) t.view)
            ↔ conn ∈ List.drop (i + 1) t.view := by
          simp only [List.mem_cons]
          constructor
          · rintro (hh | hh)
            · exact absurd hh.symm hc
            · exact hh
          · exact Or.inr
        simp only [this]

theorem remove_conn_view (t : ServerTable) (conn : quicly_conn_t) (h : t.wf) :
    (remove_conn t conn).view = t.view.erase conn := by
  have := (remove_conn_loop_spec t conn h t.num_conns 0 (by omega)).1
  simpa [remove_conn] using this

theorem remove_conn_wf (t : ServerTable) (conn : quicly_conn_t) (h : t.wf) :
    (remove_conn t conn).wf :=
  (remove_conn_loop_spec t conn h t.num_conns 0 (by omega)).2.1

theorem remove_conn_num_conns (t : ServerTable) (conn : quicly_conn_t) (h : t.wf) :
    (remove_conn t conn).num_conns
      = if conn ∈ t.view then t.num_conns - 1 else t.num_conns := by
  have := (remove_conn_loop_spec t conn h t.num_conns 0 (by omega)).2.2
  simpa [remove_conn] using this

/-! ## The wait duration -/

theorem int64_sub_pos_div (d : Int) (h : 0 < d) :
    Int.tdiv d 1000 = d / 1000 ∧ Int.tmod d 1000 = d % 1000 :=
  ⟨Int.tdiv_eq_ediv (le_of_lt h) (by norm_num), Int.tmod_eq_emod (le_of_lt h) (by norm_num)⟩

/-- C5: for every deadline `timeout_at` other than `INT64_MAX` and every clock value
`now`, with `delta = timeout_at - now` taken modulo `2^64`, the loops pass `select` a
timeout that is never negative (`tv_sec >= 0`, `0 <= tv_usec < 1000000`), that is exactly
zero when `delta <= 0`, and that is exactly `delta` milliseconds when `delta > 0`
(`tv_sec = delta / 1000`, `tv_usec = (delta % 1000) * 1000`).  The client loop and the
server loop both pass the result of this computation on their own deadline. -/
theorem select_timeout_never_negative (timeout_at now : Int)
    (hdeadline : timeout_at ≠ INT64_MAX) :
    (∃ tv, select_timeout timeout_at now = some tv
      ∧ 0 ≤ tv.tv_sec ∧ 0 ≤ tv.tv_usec ∧ tv.tv_usec < 1000000
      ∧ (int64_sub timeout_at now ≤ 0 → tv.tv_sec = 0 ∧ tv.tv_usec = 0)
      ∧ (0 < int64_sub timeout_at now →
          tv.tv_sec = int64_sub timeout_at now / 1000
          ∧ tv.tv_usec = int64_sub timeout_at now % 1000 * 1000
          ∧ tv.tv_sec * 1000000 + tv.tv_usec = int64_sub timeout_at now * 1000))
    ∧ (∀ ft conn, client_timeout_at ft conn = timeout_at →
        run_client_timeout ft conn now = select_timeout timeout_at now)
    ∧ (∀ ft t, server_timeout_at ft t = timeout_at →
        run_server_timeout ft t now = select_timeout timeout_at now) := by
  refine ⟨?_, ?_, ?_⟩
  · by_cases hd : 0 < int64_sub timeout_at now
    · obtain ⟨e1, e2⟩ := int64_sub_pos_div _ hd
      refine ⟨⟨int64_sub timeout_at now / 1000, int64_sub timeout_at now % 1000 * 1000⟩,
        ?_, ?_, ?_, ?_, ?_, ?_⟩
      · simp only [select_timeout, if_pos hdeadline]
        simp only [gt_iff_lt, if_pos hd, e1, e2]
      · exact Int.ediv_nonneg (le_of_lt hd) (by norm_num)
      · have := Int.emod_nonneg (int64_sub timeout_at now) (by norm_num : (1000 : Int) ≠ 0)
        positivity
      · have := Int.emod_lt_of_pos (int64_sub timeout_at now) (by norm_num : (0 : Int) < 1000)
        show int64_sub timeout_at now % 1000 * 1000 < 1000000
        omega
      · intro hle
        exact absurd hd (not_lt.mpr hle)
      · intro _
        refine ⟨rfl, rfl, ?_⟩
        show int64_sub timeout_at now / 1000 * 1000000
          + int64_sub timeout_at now % 1000 * 1000 = int64_sub timeout_at now * 1000
        have := Int.ediv_add_emod (int64_sub timeout_at now) 1000
        omega
    · refine ⟨⟨0, 0⟩, ?_, le_refl _, le_refl _, by norm_num, ?_, ?_⟩
      · simp only [select_timeout, if_pos hdeadline]
        simp only [gt_iff_lt, if_neg hd]
      · intro _
        exact ⟨rfl, rfl⟩
      · intro hpos
        exact absurd hpos hd
  · intro ft conn h
    simp only [run_client_timeout, h]
  · intro ft t h
    simp only [run_server_timeout, h]

/-- The statement of C5 at deadline 5000 and clock 1500: the wait is 3 s 500000 us. -/
theorem select_timeout_never_negative_witness :
    (∃ tv, select_timeout 5000 1500 = some tv
      ∧ 0 ≤ tv.tv_sec ∧ 0 ≤ tv.tv_usec ∧ tv.tv_usec < 1000000
      ∧ (int64_sub 5000 1500 ≤ 0 → tv.tv_sec = 0 ∧ tv.tv_usec = 0)
      ∧ (0 < int64_sub 5000 1500 →
          tv.tv_sec = int64_sub 5000 1500 / 1000
          ∧ tv.tv_usec = int64_sub 5000 1500 % 1000 * 1000
          ∧ tv.tv_sec * 1000000 + tv.tv_usec = int64_sub 5000 1500 * 1000))
    ∧ (∀ ft conn, client_timeout_at ft conn = 5000 →
        run_client_timeout ft conn 1500 = select_timeout 5000 1500)
    ∧ (∀ ft t, server_timeout_at ft t = 5000 →
        run_server_timeout ft t 1500 = select_timeout 5000 1500) :=
  select_timeout_never_negative 5000 1500 (by decide)

/-! ## The deadline scan -/

theorem foldl_min_le_init (ft : quicly_conn_t → Int) (l : List quicly_conn_t) (a : Int) :
    l.foldl (fun a c => if ft c < a then ft c else a) a ≤ a := by
  induction l generalizing a with
  | nil => simp
  | cons x xs ih =>
    simp only [List.foldl_cons]
    refine le_trans (ih _) ?_
    split <;> omega

theorem foldl_min_le_mem (ft : quicly_conn_t → Int) (l : List quicly_conn_t) (a : Int)
    (c : quicly_conn_t) (hc : c ∈ l) :
    l.foldl (fun a c => if ft c < a then ft c else a) a ≤ ft c := by
  induction l generalizing a with
  | nil => simp at hc
  | cons x xs ih =>
    simp only [List.foldl_cons]
    rcases List.mem_cons.mp hc with h | h
    · subst h
      refine le_trans (foldl_min_le_init ft xs _) ?_
      split <;> omega
    · exact ih _ h

theorem foldl_min_attained (ft : quicly_conn_t → Int) (l : List quicly_conn_t) (a : Int) :
    l.foldl (fun a c => if ft c < a then ft c else a) a = a
    ∨ ∃ c ∈ l, l.foldl (fun a c => if ft c < a then ft c else a) a = ft c := by
  induction l generalizing a with
  | nil => simp
  | cons x xs ih =>
    simp only [List.foldl_cons]
    rcases ih (if ft x < a then ft x else a) with h | ⟨c, hc, h⟩
    · by_cases hx : ft x < a
      · right
        exact ⟨x, List.mem_cons_self _ _, by rw [h, if_pos hx]⟩
      · left
        rw [h, if_neg hx]
    · right
      exact ⟨c, List.mem_cons_of_mem _ hc, h⟩

theorem scan_is_minimum (ft : quicly_conn_t → Int) (l : List quicly_conn_t)
    (hft : ∀ c ∈ l, is_int64 (ft c)) (hl : l ≠ []) :
    (∃ c ∈ l, l.foldl (fun a c => if ft c < a then ft c else a) INT64_MAX = ft c)
    ∧ ∀ c ∈ l, l.foldl (fun a c => if ft c < a then ft c else a) INT64_MAX ≤ ft c := by
  refine ⟨?_, fun c hc => foldl_min_le_mem ft l _ c hc⟩
  rcases foldl_min_attained ft l INT64_MAX with h | h
  · obtain ⟨x, xs, rfl⟩ := List.exists_cons_of_ne_nil hl
    refine ⟨x, List.mem_cons_self _ _, ?_⟩
    have h1 := foldl_min_le_mem ft (x :: xs) INT64_MAX x (List.mem_cons_self _ _)
    have h2 := (hft x (List.mem_cons_self _ _)).2
    rw [h] at h1 ⊢
    omega
  · exact h

/-- C2: the deadline scan at the top of the server loop leaves `timeout_at` at
`INT64_MAX` on the empty table, so that `select` gets a NULL timeout; on a non-empty table
it yields the minimum of `quicly_get_first_timeout` over exactly the handles of
`conns[0..num_conns)` (a value attained by a handle of the table and below that of every
handle of the table); and once a handle holding the minimum has been removed, the scan
yields the minimum over the handles that remain (or `INT64_MAX` when none remains). -/
theorem server_timeout_at_is_minimum (ft : quicly_conn_t → Int) (t : ServerTable)
    (hft : ∀ c ∈ t.view, is_int64 (ft c)) (hwf : t.wf) :
    (t.view = [] →
      server_timeout_at ft t = INT64_MAX ∧ ∀ now, run_server_timeout ft t now = none)
    ∧ (t.view ≠ [] →
      (∃ c ∈ t.view, server_timeout_at ft t = ft c)
      ∧ ∀ c ∈ t.view, server_timeout_at ft t ≤ ft c)
    ∧ (∀ x ∈ t.view, (∀ c ∈ t.view, ft x ≤ ft c) →
      (remove_conn t x).view = t.view.erase x
      ∧ (t.view.erase x = [] → server_timeout_at ft (remove_conn t x) = INT64_MAX)
      ∧ (t.view.erase x ≠ [] →
        (∃ c ∈ t.view.erase x, server_timeout_at ft (remove_conn t x) = ft c)
        ∧ ∀ c ∈ t.view.erase x, server_timeout_at ft (remove_conn t x) ≤ ft c)) := by
  refine ⟨?_, ?_, ?_⟩
  · intro he
    have h1 : server_timeout_at ft t = INT64_MAX := by
      rw [server_timeout_at_eq, he]; rfl
    refine ⟨h1, fun now => ?_⟩
    simp [run_server_timeout, h1, select_timeout]
  · intro hne
    rw [server_timeout_at_eq]
    exact scan_is_minimum ft _ hft hne
  · intro x _ _
    have hv := remove_conn_view t x hwf
    refine ⟨hv, ?_, ?_⟩
    · intro he
      rw [server_timeout_at_eq, hv, he]; rfl
    · intro hne
      rw [server_timeout_at_eq, hv]
      exact scan_is_minimum ft _ (fun c hc => hft c (List.mem_of_mem_erase hc)) hne

/-- The statement of C2 on the table `[3, 1, 2]` with first timeouts 30, 10 and 20. -/
theorem server_timeout_at_is_minimum_witness :
    ((⟨[3, 1, 2], 3⟩ : ServerTable).view = [] →
      server_timeout_at (fun c => (c : Int) * 10) ⟨[3, 1, 2], 3⟩ = INT64_MAX
      ∧ ∀ now, run_server_timeout (fun c => (c : Int) * 10) ⟨[3, 1, 2], 3⟩ now = none)
    ∧ ((⟨[3, 1, 2], 3⟩ : ServerTable).view ≠ [] →
      (∃ c ∈ (⟨[3, 1, 2], 3⟩ : ServerTable).view,
        server_timeout_at (fun c => (c : Int) * 10) ⟨[3, 1, 2], 3⟩ = (c : Int) * 10)
      ∧ ∀ c ∈ (⟨[3, 1, 2], 3⟩ : ServerTable).view,
        server_timeout_at (fun c => (c : Int) * 10) ⟨[3, 1, 2], 3⟩ ≤ (c : Int) * 10)
    ∧ (∀ x ∈ (⟨[3, 1, 2], 3⟩ : ServerTable).view,
      (∀ c ∈ (⟨[3, 1, 2], 3⟩ : ServerTable).view, (x : Int) * 10 ≤ (c : Int) * 10) →
      (remove_conn ⟨[3, 1, 2], 3⟩ x).view = (⟨[3, 1, 2], 3⟩ : ServerTable).view.erase x
      ∧ ((⟨[3, 1, 2], 3⟩ : ServerTable).view.erase x = [] →
        server_timeout_at (fun c => (c : Int) * 10) (remove_conn ⟨[3, 1, 2], 3⟩ x) = INT64_MAX)
      ∧ ((⟨[3, 1, 2], 3⟩ : ServerTable).view.erase x ≠ [] →
        (∃ c ∈ (⟨[3, 1, 2], 3⟩ : ServerTable).view.erase x,
          server_timeout_at (fun c => (c : Int) * 10) (remove_conn ⟨[3, 1, 2], 3⟩ x)
            = (c : Int) * 10)
        ∧ ∀ c ∈ (⟨[3, 1, 2], 3⟩ : ServerTable).view.erase x,
          server_timeout_at (fun c => (c : Int) * 10) (remove_conn ⟨[3, 1, 2], 3⟩ x)
            ≤ (c : Int) * 10)) :=
  server_timeout_at_is_minimum (fun c => (c : Int) * 10) ⟨[3, 1, 2], 3⟩ (by decide) (by decide)


/-! ## Lookup, removal and the uniqueness of identifiers -/

theorem find_unique (cid : quicly_conn_t → Nat) (l : List quicly_conn_t)
    (hu : (l.map cid).Nodup) (c : quicly_conn_t) (hc : c ∈ l) :
    l.find? (fun x => decide (cid x = cid c)) = some c := by
  induction l with
  | nil => simp at hc
  | cons x xs ih =>
    simp only [List.map_cons, List.nodup_cons] at hu
    rcases List.mem_cons.mp hc with h | h
    · subst h
      simp [List.find?_cons]
    · have hne : cid x ≠ cid c := by
        intro he
        exact hu.1 (he ▸ List.mem_map_of_mem cid h)
      simp only [List.find?_cons, hne, decide_False]
      exact ih hu.2 h

theorem find_absent (cid : quicly_conn_t → Nat) (l : List quicly_conn_t) (id : Nat)
    (h : ∀ c ∈ l, cid c ≠ id) :
    l.find? (fun x => decide (cid x = id)) = none := by
  rw [List.find?_eq_none]
  intro x hx
  simpa using h x hx

theorem find_sound (cid : quicly_conn_t → Nat) (l : List quicly_conn_t) (id : Nat)
    (c : quicly_conn_t) (h : l.find? (fun x => decide (cid x = id)) = some c) :
    c ∈ l ∧ cid c = id := by
  refine ⟨List.mem_of_find?_eq_some h, ?_⟩
  simpa using List.find?_some h

theorem erase_no_id (cid : quicly_conn_t → Nat) (l : List quicly_conn_t)
    (hu : (l.map cid).Nodup) (x : quicly_conn_t) (hx : x ∈ l) :
    ∀ c ∈ l.erase x, cid c ≠ cid x := by
  intro c hc he
  have hnd : l.Nodup := List.Nodup.of_map cid hu
  obtain ⟨hne, hmem⟩ := (List.Nodup.mem_erase_iff hnd).mp hc
  exact hne (List.inj_on_of_nodup_map hu hmem hx he)

theorem erase_ids_unique (cid : quicly_conn_t → Nat) (l : List quicly_conn_t)
    (hu : (l.map cid).Nodup) (x : quicly_conn_t) : ((l.erase x).map cid).Nodup :=
  List.Nodup.sublist ((List.erase_sublist x l).map cid) hu

theorem reachable_wf_unique (cid : quicly_conn_t → Nat) (t : ServerTable)
    (h : Reachable cid t) : t.wf ∧ ids_unique cid t := by
  induction h with
  | init => exact ⟨by decide, by simp [ids_unique, ServerTable.view, ServerTable.init]⟩
  | append t c _ hu ih => exact ⟨append_conn_wf t c ih.1, hu⟩
  | remove t c _ ih =>
    refine ⟨remove_conn_wf t c ih.1, ?_⟩
    unfold ids_unique
    rw [remove_conn_view t c ih.1]
    exact erase_ids_unique cid _ ih.2 c


/-- C1: on every table reachable from the empty table by appends and removals by handle
that never put two equal identifiers in the table at the same time, and for every
identifier `id`, the lookup scan returns the handle of the table whose identifier is `id`
when there is one and NULL when there is none, and what it returns is always a handle of
the table with that identifier; right after a handle has been removed, the lookup of its
identifier returns NULL. -/
theorem find_conn_returns_unique_handle (cid : quicly_conn_t → Nat) (t : ServerTable)
    (h : Reachable cid t) (id : Nat) :
    (∀ c ∈ t.view, cid c = id → find_conn cid t id = some c)
    ∧ ((∀ c ∈ t.view, cid c ≠ id) → find_conn cid t id = none)
    ∧ (∀ c, find_conn cid t id = some c → c ∈ t.view ∧ cid c = id)
    ∧ (∀ c ∈ t.view, find_conn cid (remove_conn t c) (cid c) = none) := by
  obtain ⟨hwf, hu⟩ := reachable_wf_unique cid t h
  refine ⟨?_, ?_, ?_, ?_⟩
  · intro c hc he
    rw [find_conn_eq, ← he]
    exact find_unique cid _ hu c hc
  · intro hall
    rw [find_conn_eq]
    exact find_absent cid _ id hall
  · intro c hc
    rw [find_conn_eq] at hc
    exact find_sound cid _ id c hc
  · intro c hc
    rw [find_conn_eq, remove_conn_view t c hwf]
    exact find_absent cid _ _ (erase_no_id cid _ hu c hc)

/-- The statement of C1 on the table left by appending handles 1 and 2 and removing
handle 1, identifiers being `handle + 100`, for the identifier 102. -/
theorem find_conn_returns_unique_handle_witness :
    (∀ c ∈ (remove_conn (append_conn (append_conn ServerTable.init 1) 2) 1).view,
      c + 100 = 102 →
      find_conn (fun c => c + 100)
        (remove_conn (append_conn (append_conn ServerTable.init 1) 2) 1) 102 = some c)
    ∧ ((∀ c ∈ (remove_conn (append_conn (append_conn ServerTable.init 1) 2) 1).view,
        c + 100 ≠ 102) →
      find_conn (fun c => c + 100)
        (remove_conn (append_conn (append_conn ServerTable.init 1) 2) 1) 102 = none)
    ∧ (∀ c, find_conn (fun c => c + 100)
        (remove_conn (append_conn (append_conn ServerTable.init 1) 2) 1) 102 = some c →
      c ∈ (remove_conn (append_conn (append_conn ServerTable.init 1) 2) 1).view
      ∧ c + 100 = 102)
    ∧ (∀ c ∈ (remove_conn (append_conn (append_conn ServerTable.init 1) 2) 1).view,
      find_conn (fun c => c + 100)
        (remove_conn (remove_conn (append_conn (append_conn ServerTable.init 1) 2) 1) c)
        (c + 100) = none) :=
  find_conn_returns_unique_handle (fun c => c + 100)
    (remove_conn (append_conn (append_conn ServerTable.init 1) 2) 1)
    (Reachable.remove _ 1
      (Reachable.append _ 2
        (Reachable.append _ 1 Reachable.init (by decide)) (by decide)))
    102

/-- C3: on every table whose counter stays within the array and for every connection `X`
in it, when `send_pending` returns non-zero on `X` the flush step leaves exactly the table
before with one entry `X` deleted: `num_conns` is one less, the table was `l₁ ++ X :: l₂`
and is `l₁ ++ l₂`, so that every other handle is still there and the remaining handles
keep their order; and when identifiers were unique, the lookup of the identifier of `X`
afterwards returns NULL. -/
theorem server_flush_failure_removes_one_entry (cid : quicly_conn_t → Nat)
    (t : ServerTable) (X : quicly_conn_t) (ret : Int)
    (hwf : t.wf) (hX : X ∈ t.view) (hret : ret ≠ 0) :
    (server_flush t X ret).1.num_conns + 1 = t.num_conns
    ∧ (∃ l₁ l₂, X ∉ l₁ ∧ t.view = l₁ ++ X :: l₂ ∧ (server_flush t X ret).1.view = l₁ ++ l₂)
    ∧ (∀ c ∈ t.view, c ≠ X → c ∈ (server_flush t X ret).1.view)
    ∧ (server_flush t X ret).1.view.Sublist t.view
    ∧ (ids_unique cid t → find_conn cid (server_flush t X ret).1 (cid X) = none) := by
  have hf : (server_flush t X ret).1 = remove_conn t X := by
    simp [server_flush, hret]
  have hv := remove_conn_view t X hwf
  rw [hf]
  refine ⟨?_, ?_, ?_, ?_, ?_⟩
  · rw [remove_conn_num_conns t X hwf, if_pos hX]
    have hpos : 0 < t.view.length := List.length_pos_of_mem hX
    rw [view_length t hwf] at hpos
    omega
  · obtain ⟨l₁, l₂, h1, h2, h3⟩ := List.exists_erase_eq hX
    exact ⟨l₁, l₂, h1, h2, by rw [hv, h3]⟩
  · intro c hc hne
    rw [hv]
    exact (List.mem_erase_of_ne hne).mpr hc
  · rw [hv]
    exact List.erase_sublist X t.view
  · intro hu
    rw [find_conn_eq, hv]
    exact find_absent cid _ _ (erase_no_id cid _ hu X hX)

/-- The statement of C3 on the table `[4, 5, 6]` with stale storage behind it, for the
connection 5 and the return value 1 of `send_pending`. -/
theorem server_flush_failure_removes_one_entry_witness :
    (server_flush ⟨[4, 5, 6, 9], 3⟩ 5 1).1.num_conns + 1 = (⟨[4, 5, 6, 9], 3⟩ : ServerTable).num_conns
    ∧ (∃ l₁ l₂, 5 ∉ l₁ ∧ (⟨[4, 5, 6, 9], 3⟩ : ServerTable).view = l₁ ++ 5 :: l₂
        ∧ (server_flush ⟨[4, 5, 6, 9], 3⟩ 5 1).1.view = l₁ ++ l₂)
    ∧ (∀ c ∈ (⟨[4, 5, 6, 9], 3⟩ : ServerTable).view, c ≠ 5 →
        c ∈ (server_flush ⟨[4, 5, 6, 9], 3⟩ 5 1).1.view)
    ∧ (server_flush ⟨[4, 5, 6, 9], 3⟩ 5 1).1.view.Sublist (⟨[4, 5, 6, 9], 3⟩ : ServerTable).view
    ∧ (ids_unique (fun c => c + 100) ⟨[4, 5, 6, 9], 3⟩ →
        find_conn (fun c => c + 100) (server_flush ⟨[4, 5, 6, 9], 3⟩ 5 1).1 (5 + 100) = none) :=
  server_flush_failure_removes_one_entry (fun c => c + 100) ⟨[4, 5, 6, 9], 3⟩ 5 1
    (by decide) (by decide) (by decide)

/-! ## The server loop keeps identifiers unique when accept keeps the packet's identifier -/

theorem server_flush_inv (cid : quicly_conn_t → Nat) (t : ServerTable) (conn : quicly_conn_t)
    (ret : Int) (h : t.wf ∧ ids_unique cid t) :
    (server_flush t conn ret).1.wf ∧ ids_unique cid (server_flush t conn ret).1 := by
  unfold server_flush
  by_cases hret : ret ≠ 0
  · simp only [if_pos hret]
    refine ⟨remove_conn_wf t conn h.1, ?_⟩
    unfold ids_unique
    rw [remove_conn_view t conn h.1]
    exact erase_ids_unique cid _ h.2 conn
  · simp only [if_neg hret]
    exact h

theorem append_conn_inv (cid : quicly_conn_t → Nat) (t : ServerTable) (conn : quicly_conn_t)
    (h : t.wf ∧ ids_unique cid t) (hnew : find_conn cid t (cid conn) = none) :
    (append_conn t conn).wf ∧ ids_unique cid (append_conn t conn) := by
  refine ⟨append_conn_wf t conn h.1, ?_⟩
  unfold ids_unique
  rw [append_conn_view t conn h.1, List.map_append, List.map_singleton]
  rw [find_conn_eq, List.find?_eq_none] at hnew
  refine List.Nodup.append h.2 (List.nodup_singleton _) ?_
  intro a ha hb
  rw [List.mem_singleton] at hb
  obtain ⟨y, hy, hye⟩ := List.mem_map.mp ha
  have := hnew y hy
  simp only [decide_eq_true_eq] at this
  exact this (hye.trans hb)

theorem run_server_cycle_inv (cid : quicly_conn_t → Nat) (t : ServerTable) (w : server_wake)
    (h : t.wf ∧ ids_unique cid t)
    (hacc : ∀ c, w.accept = some c → cid c = w.connection_id) :
    (run_server_cycle cid t w).1.wf ∧ ids_unique cid (run_server_cycle cid t w).1 := by
  unfold run_server_cycle
  by_cases h1 : w.readable = true
  · by_cases h2 : w.decode_ret = 0
    · by_cases h3 : w.has_connection_id = true
      · simp only [h1, h2, h3, if_true]
        cases hf : find_conn cid t w.connection_id with
        | some conn =>
          exact server_flush_inv cid t conn _ h
        | none =>
          cases ha : w.accept with
          | some conn =>
            have hid := hacc conn ha
            exact server_flush_inv cid _ conn _
              (append_conn_inv cid t conn h (by rw [hid]; exact hf))
          | none => exact h
      · simp only [h1, h2, h3, if_true]
        exact h
    · simp only [h1, h2, if_true, if_false]
      exact h
  · simp only [h1]
    exact h

theorem run_server_inv (cid : quicly_conn_t → Nat) (ws : List server_wake) (t : ServerTable)
    (h : t.wf ∧ ids_unique cid t)
    (hacc : ∀ w ∈ ws, ∀ c, w.accept = some c → cid c = w.connection_id) :
    (run_server cid t ws).1.wf ∧ ids_unique cid (run_server cid t ws).1 := by
  induction ws generalizing t with
  | nil => exact h
  | cons w ws ih =>
    simp only [run_server]
    exact ih _ (run_server_cycle_inv cid t w h (hacc w (List.mem_cons_self _ _)))
      (fun w' hw' => hacc w' (List.mem_cons_of_mem _ hw'))

/-- C7, as amended: when every handle `quicly_accept` yields carries the identifier of
the packet that made the server call it, then after every sequence of wake-ups from the
empty table (datagrams, accept outcomes and flush outcomes of any kind) the table holds no
two handles with the same connection identifier. -/
theorem run_server_ids_unique (cid : quicly_conn_t → Nat) (ws : List server_wake)
    (hacc : ∀ w ∈ ws, ∀ c, w.accept = some c → cid c = w.connection_id) :
    ids_unique cid (run_server cid ServerTable.init ws).1 :=
  (run_server_inv cid ws ServerTable.init
    ⟨by decide, by simp [ids_unique, ServerTable.view, ServerTable.init]⟩ hacc).2

/-- The amended C7 on two accepted connections, the first of which is then found again
and fails its flush. -/
theorem run_server_ids_unique_witness :
    ids_unique (fun c => c / 10)
      (run_server (fun c => c / 10) ServerTable.init
        [⟨true, 0, true, 7, false, 0, some 70, 0⟩, ⟨true, 0, true, 9, false, 0, some 90, 0⟩,
          ⟨true, 0, true, 7, true, 1, none, 1⟩]).1 :=
  run_server_ids_unique (fun c => c / 10)
    [⟨true, 0, true, 7, false, 0, some 70, 0⟩, ⟨true, 0, true, 9, false, 0, some 90, 0⟩,
      ⟨true, 0, true, 7, true, 1, none, 1⟩]
    (by decide)

/-- C7 as stated fails: the first datagram carries identifier 7 and `quicly_accept` yields
handle 70, of identifier 7; the second carries identifier 9, the lookup finds nothing, and
`quicly_accept` yields handle 71, whose identifier is 7 as well.  Both sit in the table. -/
theorem run_server_ids_not_unique :
    (run_server (fun c => c / 10) ServerTable.init
      [⟨true, 0, true, 7, false, 0, some 70, 0⟩, ⟨true, 0, true, 9, false, 0, some 71, 0⟩]).1.view
      = [70, 71]
    ∧ ¬ ids_unique (fun c => c / 10)
      (run_server (fun c => c / 10) ServerTable.init
        [⟨true, 0, true, 7, false, 0, some 70, 0⟩, ⟨true, 0, true, 9, false, 0, some 71, 0⟩]).1 := by
  decide


/-! ## send_pending -/

theorem freed_append (a b : List Event) : freed (a ++ b) = freed a ++ freed b := by
  induction a with
  | nil => rfl
  | cons e es ih => cases e <;> simp [freed, ih]

theorem drain_calls_append (a b : List Event) :
    drain_calls (a ++ b) = drain_calls a + drain_calls b := by
  induction a with
  | nil => simp [drain_calls]
  | cons e es ih =>
    cases e <;> simp [drain_calls, ih]
    omega

theorem sendmsg_loop_quiet (p : quicly_raw_packet_t) (eintr : Nat) (ret : Int) :
    freed (sendmsg_loop p eintr ret) = [] ∧ drain_calls (sendmsg_loop p eintr ret) = 0 := by
  induction eintr with
  | zero => simp [sendmsg_loop, freed, drain_calls]
  | succ k ih => simp [sendmsg_loop, freed, drain_calls, ih]

theorem send_packets_spec (o : Nat → sendmsg_outcome) (ps : List quicly_raw_packet_t)
    (n : Nat) (ret : Int) :
    freed (send_packets o ps n ret).1 = ps
    ∧ drain_calls (send_packets o ps n ret).1 = 0
    ∧ (send_packets o ps n ret).2 = if ps = [] then ret else 0 := by
  induction ps generalizing n ret with
  | nil => simp [send_packets, freed, drain_calls]
  | cons p ps ih =>
    obtain ⟨h1, h2, h3⟩ := ih (n + 1) 0
    obtain ⟨q1, q2⟩ := sendmsg_loop_quiet p (o n).eintr (o n).ret
    simp only [send_packets, freed_append, drain_calls_append, h1, h2, h3, q1, q2]
    refine ⟨?_, ?_, ?_⟩
    · by_cases hr : (o n).ret = -1 <;> simp [hr, freed]
    · by_cases hr : (o n).ret = -1 <;> simp [hr, drain_calls]
    · by_cases hp : ps = [] <;> simp [hp]

theorem drain_calls_cons_send (es : List Event) :
    drain_calls (Event.quicly_send :: es) = drain_calls es + 1 := rfl

theorem freed_cons_send (es : List Event) : freed (Event.quicly_send :: es) = freed es := rfl

theorem handed_out_cons (r : quicly_send_result) (rest : List quicly_send_result) (m : Nat) :
    handed_out (r :: rest) (m + 1) = r.packets ++ handed_out rest m := by
  simp [handed_out]

theorem send_pending_spec (o : Nat → sendmsg_outcome) (answers : List quicly_send_result)
    (n : Nat) :
    drain_calls (send_pending o answers n).1
      = min answers.length
          ((answers.takeWhile (fun r => decide (r.packets ≠ []))).length + 1)
    ∧ freed (send_pending o answers n).1
      = handed_out answers (drain_calls (send_pending o answers n).1)
    ∧ (send_pending o answers n).2
      = (answers.find? (fun r => decide (r.packets = []))).map (fun r => r.ret) := by
  induction answers generalizing n with
  | nil => simp [send_pending, drain_calls, freed, handed_out]
  | cons r rest ih =>
    obtain ⟨h1, h2, h3⟩ := ih (n + r.packets.length)
    obtain ⟨q1, q2, q3⟩ := send_packets_spec o r.packets n r.ret
    by_cases hp : r.packets = []
    · have hcond : ¬ ((send_packets o r.packets n r.ret).2 = 0 ∧ r.packets.length ≠ 0) := by
        simp [hp]
      have q3r : (send_packets o r.packets n r.ret).2 = r.ret := by rw [q3, if_pos hp]
      have htw : List.takeWhile (fun r => decide (r.packets ≠ [])) (r :: rest) = [] := by
        simp [List.takeWhile_cons, hp]
      have hfind : List.find? (fun r => decide (r.packets = [])) (r :: rest) = some r := by
        simp [List.find?_cons, hp]
      simp only [send_pending, if_neg hcond]
      rw [drain_calls_cons_send, freed_cons_send, q1, q2, q3r, htw, hfind, handed_out_cons, hp]
      refine ⟨?_, ?_, rfl⟩
      · simp
      · simp [handed_out]
    · have hcond : (send_packets o r.packets n r.ret).2 = 0 ∧ r.packets.length ≠ 0 := by
        refine ⟨by rw [q3, if_neg hp], ?_⟩
        simpa using hp
      have htw : List.takeWhile (fun r => decide (r.packets ≠ [])) (r :: rest)
          = r :: List.takeWhile (fun r => decide (r.packets ≠ [])) rest := by
        simp [List.takeWhile_cons, hp]
      have hfind : List.find? (fun r => decide (r.packets = [])) (r :: rest)
          = List.find? (fun r => decide (r.packets = [])) rest := by
        simp [List.find?_cons, hp]
      simp only [send_pending, if_pos hcond]
      rw [List.cons_append, drain_calls_cons_send, freed_cons_send, drain_calls_append,
        freed_append, q1, q2, Nat.zero_add, handed_out_cons, ← h2, htw, hfind, h3, h1]
      refine ⟨?_, rfl, rfl⟩
      simp only [List.length_cons]
      omega

/-- C4: for every finite sequence of answers of `quicly_send` (a status and at most 16
packets each) and any two assignments of outcomes to the `sendmsg` attempts,
`send_pending` passes to the packet-free operation exactly the packets handed out by the
drain calls it made, each occurrence once and in order (so a packet handed out once is
freed once, never twice, never zero times); the freed packets, the number of drain calls
and the returned value are the same under both assignments; the number of drain calls is
fixed by the answers alone (one past the leading answers that carry packets); and the
call returns as soon as an answer carries no packet. -/
theorem send_pending_frees_each_packet_once (o₁ o₂ : Nat → sendmsg_outcome)
    (answers : List quicly_send_result)
    (_h16 : ∀ r ∈ answers, r.packets.length ≤ 16) :
    freed (send_pending o₁ answers 0).1
      = handed_out answers (drain_calls (send_pending o₁ answers 0).1)
    ∧ (∀ p, (freed (send_pending o₁ answers 0).1).count p
        = (handed_out answers (drain_calls (send_pending o₁ answers 0).1)).count p)
    ∧ ((handed_out answers (drain_calls (send_pending o₁ answers 0).1)).Nodup →
        ∀ p ∈ handed_out answers (drain_calls (send_pending o₁ answers 0).1),
          (freed (send_pending o₁ answers 0).1).count p = 1)
    ∧ freed (send_pending o₁ answers 0).1 = freed (send_pending o₂ answers 0).1
    ∧ drain_calls (send_pending o₁ answers 0).1 = drain_calls (send_pending o₂ answers 0).1
    ∧ (send_pending o₁ answers 0).2 = (send_pending o₂ answers 0).2
    ∧ drain_calls (send_pending o₁ answers 0).1
        = min answers.length
            ((answers.takeWhile (fun r => decide (r.packets ≠ []))).length + 1)
    ∧ ((∃ r ∈ answers, r.packets = []) → ((send_pending o₁ answers 0).2).isSome = true) := by
  obtain ⟨a1, a2, a3⟩ := send_pending_spec o₁ answers 0
  obtain ⟨b1, b2, b3⟩ := send_pending_spec o₂ answers 0
  refine ⟨a2, ?_, ?_, ?_, ?_, ?_, a1, ?_⟩
  · intro p
    rw [a2]
  · intro hnd p hp
    rw [a2]
    exact List.count_eq_one_of_mem hnd hp
  · rw [a2, b2, a1, b1]
  · rw [a1, b1]
  · rw [a3, b3]
  · rintro ⟨r, hr, he⟩
    rw [a3]
    cases hfind : answers.find? (fun r => decide (r.packets = [])) with
    | some x => rfl
    | none =>
      rw [List.find?_eq_none] at hfind
      have := hfind r hr
      simp [he] at this

/-- The statement of C4 on three answers (two packets with a non-zero status, one packet,
none), the first assignment making every `sendmsg` succeed and the second making every
`sendmsg` fail after two interrupted attempts. -/
theorem send_pending_frees_each_packet_once_witness :
    freed (send_pending (fun _ => ⟨0, 100⟩) [⟨5, [11, 12]⟩, ⟨0, [13]⟩, ⟨0, []⟩] 0).1
      = handed_out [⟨5, [11, 12]⟩, ⟨0, [13]⟩, ⟨0, []⟩]
          (drain_calls (send_pending (fun _ => ⟨0, 100⟩) [⟨5, [11, 12]⟩, ⟨0, [13]⟩, ⟨0, []⟩] 0).1)
    ∧ (∀ p, (freed (send_pending (fun _ => ⟨0, 100⟩)
          [⟨5, [11, 12]⟩, ⟨0, [13]⟩, ⟨0, []⟩] 0).1).count p
        = (handed_out [⟨5, [11, 12]⟩, ⟨0, [13]⟩, ⟨0, []⟩]
            (drain_calls (send_pending (fun _ => ⟨0, 100⟩)
              [⟨5, [11, 12]⟩, ⟨0, [13]⟩, ⟨0, []⟩] 0).1)).count p)
    ∧ ((handed_out [⟨5, [11, 12]⟩, ⟨0, [13]⟩, ⟨0, []⟩]
          (drain_calls (send_pending (fun _ => ⟨0, 100⟩)
            [⟨5, [11, 12]⟩, ⟨0, [13]⟩, ⟨0, []⟩] 0).1)).Nodup →
        ∀ p ∈ handed_out [⟨5, [11, 12]⟩, ⟨0, [13]⟩, ⟨0, []⟩]
          (drain_calls (send_pending (fun _ => ⟨0, 100⟩)
            [⟨5, [11, 12]⟩, ⟨0, [13]⟩, ⟨0, []⟩] 0).1),
          (freed (send_pending (fun _ => ⟨0, 100⟩)
            [⟨5, [11, 12]⟩, ⟨0, [13]⟩, ⟨0, []⟩] 0).1).count p = 1)
    ∧ freed (send_pending (fun _ => ⟨0, 100⟩) [⟨5, [11, 12]⟩, ⟨0, [13]⟩, ⟨0, []⟩] 0).1
      = freed (send_pending (fun _ => ⟨2, -1⟩) [⟨5, [11, 12]⟩, ⟨0, [13]⟩, ⟨0, []⟩] 0).1
    ∧ drain_calls (send_pending (fun _ => ⟨0, 100⟩) [⟨5, [11, 12]⟩, ⟨0, [13]⟩, ⟨0, []⟩] 0).1
      = drain_calls (send_pending (fun _ => ⟨2, -1⟩) [⟨5, [11, 12]⟩, ⟨0, [13]⟩, ⟨0, []⟩] 0).1
    ∧ (send_pending (fun _ => ⟨0, 100⟩) [⟨5, [11, 12]⟩, ⟨0, [13]⟩, ⟨0, []⟩] 0).2
      = (send_pending (fun _ => ⟨2, -1⟩) [⟨5, [11, 12]⟩, ⟨0, [13]⟩, ⟨0, []⟩] 0).2
    ∧ drain_calls (send_pending (fun _ => ⟨0, 100⟩) [⟨5, [11, 12]⟩, ⟨0, [13]⟩, ⟨0, []⟩] 0).1
        = min ([⟨5, [11, 12]⟩, ⟨0, [13]⟩, ⟨0, []⟩] : List quicly_send_result).length
            ((([⟨5, [11, 12]⟩, ⟨0, [13]⟩, ⟨0, []⟩] : List quicly_send_result).takeWhile
              (fun r => decide (r.packets ≠ []))).length + 1)
    ∧ ((∃ r ∈ ([⟨5, [11, 12]⟩, ⟨0, [13]⟩, ⟨0, []⟩] : List quicly_send_result), r.packets = []) →
        ((send_pending (fun _ => ⟨0, 100⟩)
          [⟨5, [11, 12]⟩, ⟨0, [13]⟩, ⟨0, []⟩] 0).2).isSome = true) :=
  send_pending_frees_each_packet_once (fun _ => ⟨0, 100⟩) (fun _ => ⟨2, -1⟩)
    [⟨5, [11, 12]⟩, ⟨0, [13]⟩, ⟨0, []⟩] (by decide)


/-- C6, at the failing input: the first call of `quicly_send` returns the non-zero status
1 together with one packet, the second returns 0 with no packet.  The pass of the `for`
loop over the packet ends with `ret = 0`, so the status 1 is overwritten and
`send_pending` returns 0.  With no packet in the first answer the status does come back. -/
theorem send_pending_loses_drain_status :
    (send_pending (fun _ => ⟨0, 100⟩) [⟨1, [7]⟩, ⟨0, []⟩] 0).2 = some 0
    ∧ (send_pending (fun _ => ⟨0, 100⟩) [⟨1, []⟩] 0).2 = some 1 := by
  decide

/-! ## on_req_receive -/

/-- C8, at the failing input: a first invocation with no inbound byte writes the
greeting and consumes nothing, so `data_off` is still 0 when the second invocation
arrives with "abc", and the greeting is written a second time before "abc". -/
theorem on_req_receive_repeats_greeting :
    (invoke_on_req_receive quicly_stream_t.init [[]]).sendbuf = greeting
    ∧ (invoke_on_req_receive quicly_stream_t.init [[]]).recvbuf.data_off = 0
    ∧ (invoke_on_req_receive quicly_stream_t.init [[], "abc".toList]).sendbuf
        = greeting ++ greeting ++ "abc".toList
    ∧ (invoke_on_req_receive quicly_stream_t.init [[], "abc".toList]).sendbuf
        ≠ greeting ++ "abc".toList := by
  decide

/-! ## The cycles of the loops -/

theorem run_server_cycle_not_readable (cid : quicly_conn_t → Nat) (t : ServerTable)
    (w : server_wake) (h : w.readable = false) : run_server_cycle cid t w = (t, []) := by
  simp [run_server_cycle, h]

/-- C9, at the failing input: the server table holds the connection 1 whose first timeout
5 has passed at clock 10, so `select` is given a zero timeout; when it returns with the
socket not readable the server cycle makes no call at all, `send_pending` included, and
leaves the table as it is, whereas the client cycle in the same situation calls
`send_pending` on its connection. -/
theorem run_server_cycle_skips_flush_on_timeout :
    server_timeout_at (fun _ => 5) ⟨[1], 1⟩ = 5
    ∧ run_server_timeout (fun _ => 5) ⟨[1], 1⟩ 10 = some ⟨0, 0⟩
    ∧ run_server_cycle (fun c => c) ⟨[1], 1⟩ ⟨false, 0, false, 0, false, 0, none, 0⟩
        = (⟨[1], 1⟩, [])
    ∧ run_client_cycle (some 1) ⟨false, 0, false, 0, 0⟩
        = Except.ok (some 1, [Call.send_pending 1]) := by
  refine ⟨by decide, by decide, by decide, rfl⟩

/-- C10, at the failing input: `quicly_send` answers with a non-zero status and no
packet, so `send_pending` returns non-zero and the first client cycle frees the connection
and sets `conn` to NULL; the next `select` gets a NULL timeout, and when a decodable
datagram makes the socket readable, `quicly_receive` is called with the NULL `conn`. -/
theorem run_client_feeds_null_conn :
    (send_pending (fun _ => ⟨0, 100⟩) [⟨1, []⟩] 0).2 = some 1
    ∧ run_client_cycle (some 1) ⟨false, 0, false, 0, 1⟩
        = Except.ok (none, [Call.send_pending 1, Call.quicly_free 1])
    ∧ run_client_timeout (fun _ => 5) none 10 = none
    ∧ run_client (some 1) [⟨false, 0, false, 0, 1⟩, ⟨true, 0, false, 0, 0⟩]
        = Except.error Fault.null_conn_in_quicly_receive := by
  refine ⟨by decide, rfl, by decide, rfl⟩

end Quicly
